import Mathlib

/-!
Verification of the apollo-upload-client request pipeline.

This file gives a shallow embedding of the two source files of the
repository (`src/index.mjs`, exporting `jsonUploadLink`,
`multipartUploadLink`, `createUploadLink`, and the older single
`createUploadLink` entry point, embedded here under the `legacy` prefix)
together with the interface contracts of its external collaborators
(the `extract-files` v2 file extractor, `JSON.stringify`/`JSON.parse`,
`FormData`, JavaScript object spread, and the `fetch`/`AbortController`
transport), and proves the specified properties about them.

JavaScript values are modelled by the inductive `JValue`; machine-level
concerns (strings, numbers) are modelled with Lean `String`/`Int`.
A value on which `JSON.stringify` throws (a BigInt-like leaf) is the
constructor `JValue.jcirc`.
-/

set_option autoImplicit false

/-- An opaque binary file handle (a `File`/`Blob`/`ReactNativeFile` value):
only its `name` and opaque content identity matter to the pipeline. -/
structure UFile where
  name : String
  content : String
deriving DecidableEq, Repr

/-- One segment of a JSON-pointer-like path: an object key or an array index.
`extract-files` renders both as strings joined by dots. -/
inductive PathSeg where
  | key (k : String)
  | idx (i : Nat)
deriving DecidableEq, Repr

/-- A JavaScript value tree, as handled by the link code: JSON scalars,
file handles, arrays, objects, plus `jcirc`, a leaf on which
`JSON.stringify` throws (e.g. a BigInt; models unserializable payloads). -/
inductive JValue where
  | jnull
  | jbool (b : Bool)
  | jnum (n : Int)
  | jstr (s : String)
  | jfile (f : UFile)
  | jcirc (tag : String)
  | jarr (elems : List JValue)
  | jobj (fields : List (String × JValue))
deriving Repr

/-- Render one path segment the way `extract-files` v2 does. -/
def renderSeg : PathSeg → String
  | .key k => k
  | .idx i => Nat.repr i

/-- Render a path as the dot-joined string stored in the upload map. -/
def renderPath (p : List PathSeg) : String :=
  String.intercalate "." (p.map renderSeg)

mutual

/-- The collaborator `extract-files` v2, `extractFiles(tree, path)`: walks every key of an
object/array node; a file-valued child is recorded with its path, any other
object-valued child is recursed into.  Non-object leaves (including the
root itself when it is not an object) record nothing. -/
def extractFromValue : JValue → List PathSeg → List (List PathSeg × UFile)
  | .jarr elems, path => extractFromElems elems 0 path
  | .jobj fields, path => extractFromFields fields path
  | _, _ => []

/-- Walk the elements of an array node, numbering children from `i`. -/
def extractFromElems : List JValue → Nat → List PathSeg → List (List PathSeg × UFile)
  | [], _, _ => []
  | v :: rest, i, path =>
    (match v with
      | .jfile f => [(path ++ [.idx i], f)]
      | _ => extractFromValue v (path ++ [.idx i]))
    ++ extractFromElems rest (i + 1) path

/-- Walk the fields of an object node. -/
def extractFromFields : List (String × JValue) → List PathSeg → List (List PathSeg × UFile)
  | [], _ => []
  | (k, v) :: rest, path =>
    (match v with
      | .jfile f => [(path ++ [.key k], f)]
      | _ => extractFromValue v (path ++ [.key k]))
    ++ extractFromFields rest path

end

/-- Treatment of one child of a visited node (the inline match of the two
walks, named for the proofs): a file-valued child is recorded under its
path, any other child is recursed into. -/
def extractChild : JValue → List PathSeg → List (List PathSeg × UFile)
  | .jfile f, childPath => [(childPath, f)]
  | v, childPath => extractFromValue v childPath

/-- Unfolding of the element walk through `extractChild`. -/
theorem extractFromElems_cons (v : JValue) (rest : List JValue) (i : Nat) (path : List PathSeg) :
    extractFromElems (v :: rest) i path
      = extractChild v (path ++ [.idx i]) ++ extractFromElems rest (i + 1) path := by
  cases v <;> rfl

/-- Unfolding of the field walk through `extractChild`. -/
theorem extractFromFields_cons (k : String) (v : JValue) (rest : List (String × JValue)) (path : List PathSeg) :
    extractFromFields ((k, v) :: rest) path
      = extractChild v (path ++ [.key k]) ++ extractFromFields rest path := by
  cases v <;> rfl

/-- The call `extractFiles(tree)` with the empty root path, as both links make it. -/
def extractFiles (tree : JValue) : List (List PathSeg × UFile) :=
  extractFromValue tree []

/-- Resolve a path inside a value tree (the semantic "true location"):
object segments select the named field, index segments select the array
element. -/
def getAtPath : JValue → List PathSeg → Option JValue
  | v, [] => some v
  | .jobj fields, .key k :: rest =>
    match fields.find? (fun p => p.1 == k) with
    | some p => getAtPath p.2 rest
    | none => none
  | .jarr elems, .idx i :: rest =>
    match elems.get? i with
    | some v => getAtPath v rest
    | none => none
  | _, _ :: _ => none

mutual

/-- Well-formedness of a value as a JavaScript runtime value: object keys
are distinct at every level (a JS object cannot carry duplicate keys). -/
def wfKeys : JValue → Bool
  | .jarr elems => wfKeysElems elems
  | .jobj fields => ((fields.map Prod.fst).Nodup : Bool) && wfKeysFields fields
  | _ => true

def wfKeysElems : List JValue → Bool
  | [] => true
  | v :: rest => wfKeys v && wfKeysElems rest

def wfKeysFields : List (String × JValue) → Bool
  | [] => true
  | (_, v) :: rest => wfKeys v && wfKeysFields rest

end

mutual

/-- The in-place mutation performed by `extract-files` v2: every file leaf
of the tree is replaced by `null` before the tree is serialized. -/
def nullifyValue : JValue → JValue
  | .jfile _ => .jnull
  | .jarr elems => .jarr (nullifyElems elems)
  | .jobj fields => .jobj (nullifyFields fields)
  | v => v

def nullifyElems : List JValue → List JValue
  | [] => []
  | v :: rest => nullifyValue v :: nullifyElems rest

def nullifyFields : List (String × JValue) → List (String × JValue)
  | [] => []
  | (k, v) :: rest => (k, nullifyValue v) :: nullifyFields rest

end

/-- Escape one character for a JSON string literal. -/
def jsonEscapeChar (c : Char) : String :=
  if c = '"' then "\\\"" else if c = '\\' then "\\\\" else String.singleton c

/-- Serialization of a string by `JSON.stringify`. -/
def jsonQuote (s : String) : String :=
  "\"" ++ String.join (s.toList.map jsonEscapeChar) ++ "\""

mutual

/-- The builtin `JSON.stringify`: `none` models the exception thrown on an
unserializable value (`jcirc`); a file handle has no enumerable own
properties and serializes as an empty object. -/
def stringifyValue : JValue → Option String
  | .jnull => some "null"
  | .jbool b => some (cond b "true" "false")
  | .jnum n => some (toString n)
  | .jstr s => some (jsonQuote s)
  | .jfile _ => some "\x7b\x7d"
  | .jcirc _ => none
  | .jarr elems => (stringifyElems elems).map (fun body => "[" ++ body ++ "]")
  | .jobj fields =>
    (stringifyFields fields).map (fun body => "\x7b" ++ body ++ "\x7d")

def stringifyElems : List JValue → Option String
  | [] => some ""
  | [v] => stringifyValue v
  | v :: rest =>
    match stringifyValue v, stringifyElems rest with
    | some s, some t => some (s ++ "," ++ t)
    | _, _ => none

def stringifyFields : List (String × JValue) → Option String
  | [] => some ""
  | [(k, v)] => (stringifyValue v).map (fun s => jsonQuote k ++ ":" ++ s)
  | (k, v) :: rest =>
    match stringifyValue v, stringifyFields rest with
    | some s, some t => some (jsonQuote k ++ ":" ++ s ++ "," ++ t)
    | _, _ => none

end

/-- JavaScript property assignment `o[k] = v`: replaces the value in place
when the key exists, appends the new key otherwise. -/
def objSet (o : List (String × String)) (k v : String) : List (String × String) :=
  if o.any (fun p => p.1 == k) then
    o.map (fun p => if p.1 == k then (k, v) else p)
  else o ++ [(k, v)]

/-- JavaScript object spread `\x7b ...base, ...upd \x7d` restricted to string
maps: every key of `upd`, in order, is assigned onto `base`.  Keys compare
with exact (case-sensitive) string equality. -/
def objSpread (base upd : List (String × String)) : List (String × String) :=
  upd.foldl (fun acc p => objSet acc p.1 p.2) base

/-- Property lookup on a string map (first binding of the exact key). -/
def lookupKey (o : List (String × String)) (k : String) : Option String :=
  (o.find? (fun p => p.1 == k)).map Prod.snd


/-- A JavaScript `Error`-like value: its `name` and `message` properties. -/
structure JsError where
  name : String
  message : String
deriving DecidableEq, Repr

/-- The engine-raised TypeError from `JSON.stringify` on an unserializable
value (the exact message text is engine-specific). -/
def stringifyFailure : JsError :=
  { name := "TypeError", message := "Do not know how to serialize payload" }

/-- One value appended to a `FormData` body: a text field or a file field
carrying a filename. -/
inductive FormPart where
  | textPart (s : String)
  | filePart (f : UFile) (filename : String)
deriving Repr

/-- The outgoing request body: JSON text or a multipart `FormData`
(an ordered list of named parts). -/
inductive WireBody where
  | textBody (s : String)
  | formBody (parts : List (String × FormPart))
deriving Repr

/-- The argument record handed to the `fetch` capability: uri, method,
merged headers, optional credentials, whether an abort signal was
attached, and the body. -/
structure FetchCall where
  uri : String
  method : String
  headers : List (String × String)
  credentials : Option String
  signal : Bool
  body : WireBody
deriving Repr

/-- The reduce in both links, `map[`index`] = [path]`, numbering files from
`i`: one map entry per file, keyed by the stringified index, holding the
one-element list of that file's dot-joined path. -/
def fileMapEntries : Nat → List (List PathSeg × UFile) → List (String × JValue)
  | _, [] => []
  | i, e :: rest =>
    (Nat.repr i, JValue.jarr [JValue.jstr (renderPath e.1)]) :: fileMapEntries (i + 1) rest

/-- The `files.forEach((\x7bfile\x7d, index) => body.append(index, file, file.name))`
loop: one file part per extracted file, named by its index. -/
def filePartsFrom : Nat → List (List PathSeg × UFile) → List (String × FormPart)
  | _, [] => []
  | i, e :: rest => (Nat.repr i, FormPart.filePart e.2 e.2.name) :: filePartsFrom (i + 1) rest

/-- Serialized form of the file map; the map holds only strings, so
`JSON.stringify` never fails on it (`getD` is never the fallback). -/
def fileMapJson (files : List (List PathSeg × UFile)) : String :=
  (stringifyValue (JValue.jobj (fileMapEntries 0 files))).getD ""

/-- A GraphQL operation as the links receive it.  `query` holds the printed
(canonical text) form produced by the external printer; an empty
`operationName` models a missing name (JS falsiness). -/
structure Operation where
  operationName : String
  query : String
  vars : List (String × JValue)
  extensions : Option JValue

/-- Link-construction options (one props bag, as in the source; only the
fields the embedded claims depend on). -/
structure LinkProps where
  uri : Option String := none
  includeExtensions : Bool := false
  headers : List (String × String) := []
  credentials : Option String := none
  fetchOptionsHeaders : List (String × String) := []

/-- Per-request context read by `operation.getContext()` / `getContext()`. -/
structure RequestContext where
  uri : Option String := none
  credentials : Option String := none
  headers : List (String × String) := []
  fetchOptionsHeaders : List (String × String) := []
  httpIncludeQuery : Option Bool := none
  httpIncludeExtensions : Option Bool := none

/-- Effective `http.includeQuery` after `\x7b...defaultHttpOptions, ...httpOptions\x7d`
(default `true`). -/
def httpIncludeQuery (ctx : RequestContext) : Bool :=
  ctx.httpIncludeQuery.getD true

/-- Effective `http.includeExtensions` (default `false`). -/
def httpIncludeExtensions (ctx : RequestContext) : Bool :=
  ctx.httpIncludeExtensions.getD false

/-- The `requestOperation` record built by `jsonUploadLink`: `query` always,
`operationName` when truthy, `variables` when non-empty,
`extensions` when present and `includeExtensions` is set. -/
def jsonRequestOperation (op : Operation) (includeExtensions : Bool) : List (String × JValue) :=
  [("query", JValue.jstr op.query)]
  ++ (if op.operationName ≠ "" then [("operationName", JValue.jstr op.operationName)] else [])
  ++ (if op.vars.length ≠ 0 then [("variables", JValue.jobj op.vars)] else [])
  ++ (match op.extensions with
      | some e => if includeExtensions then [("extensions", e)] else []
      | none => [])

/-- Header merge in `jsonUploadLink`:
`\x7b...linkFetchOptions.headers, ...contextFetchOptions.headers, ...linkHeaders, ...contextHeaders\x7d`. -/
def jsonEffectiveHeaders (linkFetchOptionsHeaders contextFetchOptionsHeaders linkHeaders contextHeaders : List (String × String)) : List (String × String) :=
  objSpread (objSpread (objSpread linkFetchOptionsHeaders contextFetchOptionsHeaders) linkHeaders) contextHeaders

/-- The `jsonUploadLink` subscriber up to the `fetch` call: builds the
request operation, extracts files from it (mutating file leaves to `null`),
resolves options, and produces either a multipart or a JSON fetch call.
An `error` result models a synchronous throw before `linkFetch` is invoked. -/
def jsonUploadLinkRequest (lp : LinkProps) (ctx : RequestContext) (op : Operation) : Except JsError FetchCall :=
  let ro := jsonRequestOperation op lp.includeExtensions
  let files := extractFiles (JValue.jobj ro)
  let uri := ctx.uri.getD (lp.uri.getD "/graphql")
  let credentials := ctx.credentials.orElse (fun _ => lp.credentials)
  let headers := jsonEffectiveHeaders lp.fetchOptionsHeaders ctx.fetchOptionsHeaders lp.headers ctx.headers
  if files.isEmpty then
    match stringifyValue (JValue.jobj ro) with
    | some s =>
      .ok { uri := uri, method := "POST",
            headers := objSet headers "content-type" "application/json",
            credentials := credentials, signal := false, body := .textBody s }
    | none => .error stringifyFailure
  else
    match stringifyValue (nullifyValue (JValue.jobj ro)) with
    | some s =>
      .ok { uri := uri, method := "POST", headers := headers,
            credentials := credentials, signal := false,
            body := .formBody ([("operations", FormPart.textPart s),
                                ("map", FormPart.textPart (fileMapJson files))]
                               ++ filePartsFrom 0 files) }
    | none => .error stringifyFailure

/-- The tagged error thrown by `multipartUploadLink` (and the legacy link)
when `JSON.stringify(variables)` fails. -/
def payloadNotSerializable (e : JsError) : JsError :=
  { name := "Error",
    message := "Network request failed. Payload is not serializable: " ++ e.message }

/-- String coercion `FormData.append` applies to a non-file `extensions`
value. -/
def extensionsFormValue : Option JValue → String
  | some _ => "[object Object]"
  | none => "undefined"

/-- The `FormData` built by `multipartUploadLink`: the file map under the
field name `files`, one part per file named by its index, then
`operationName`, `variables` (whose serialization may throw the tagged
error), optional `extensions`, and the printed `query` unless disabled. -/
def multipartBodyParts (lp : LinkProps) (ctx : RequestContext) (op : Operation) : Except JsError (List (String × FormPart)) :=
  let files := extractFiles (JValue.jobj op.vars)
  match stringifyValue (nullifyValue (JValue.jobj op.vars)) with
  | none => .error (payloadNotSerializable stringifyFailure)
  | some vs =>
    .ok ([("files", FormPart.textPart (fileMapJson files))]
      ++ filePartsFrom 0 files
      ++ [("operationName", FormPart.textPart op.operationName),
          ("variables", FormPart.textPart vs)]
      ++ (if lp.includeExtensions || httpIncludeExtensions ctx then
            [("extensions", FormPart.textPart (extensionsFormValue op.extensions))]
          else [])
      ++ (if httpIncludeQuery ctx then [("query", FormPart.textPart op.query)] else []))

/-- Header construction in `multipartUploadLink`: a base of
`accept` and an explicit `content-type: multipart/form-data`, spread over
by `requestOptions.headers`, spread over by the context headers. -/
def multipartHeaders (lp : LinkProps) (ctx : RequestContext) : List (String × String) :=
  objSpread (objSpread
    [("accept", "\x2a/\x2a"), ("content-type", "multipart/form-data")]
    lp.headers) ctx.headers

/-- The source `createSignalIfSupported`: with no `AbortController` in the
environment it returns `\x7bcontroller: false, signal: false\x7d`; otherwise a
fresh controller and its signal (both modelled as `true`). -/
def createSignalIfSupported (abortSupported : Bool) : Bool × Bool :=
  if abortSupported then (true, true) else (false, false)

/-- The `multipartUploadLink` subscriber up to the `fetcher` call. -/
def multipartUploadLinkRequest (abortSupported : Bool) (lp : LinkProps) (ctx : RequestContext) (op : Operation) : Except JsError FetchCall :=
  match multipartBodyParts lp ctx op with
  | .error e => .error e
  | .ok parts =>
    let cs := createSignalIfSupported abortSupported
    .ok { uri := ctx.uri.getD (lp.uri.getD "/graphql"),
          method := "POST",
          headers := multipartHeaders lp ctx,
          credentials := ctx.credentials.orElse (fun _ => lp.credentials),
          signal := cs.1,
          body := .formBody parts }

/-- The `FormData` built by the legacy `createUploadLink` entry point
(the unnamed source file): every file is appended under the constant field
name `file`; no map of any kind is emitted. -/
def legacyBodyParts (lp : LinkProps) (ctx : RequestContext) (op : Operation) : Except JsError (List (String × FormPart)) :=
  let files := extractFiles (JValue.jobj op.vars)
  match stringifyValue (nullifyValue (JValue.jobj op.vars)) with
  | none => .error (payloadNotSerializable stringifyFailure)
  | some vs =>
    .ok ((if files.length ≠ 0 then
            files.map (fun e => ("file", FormPart.filePart e.2 e.2.name))
          else [])
      ++ [("operationName", FormPart.textPart op.operationName),
          ("variables", FormPart.textPart vs)]
      ++ (if lp.includeExtensions || httpIncludeExtensions ctx then
            [("extensions", FormPart.textPart (extensionsFormValue op.extensions))]
          else [])
      ++ (if httpIncludeQuery ctx then [("query", FormPart.textPart op.query)] else []))

/-- Header construction in the legacy `createUploadLink`: base `accept`
only, with the same two spreads on top. -/
def legacyHeaders (lp : LinkProps) (ctx : RequestContext) : List (String × String) :=
  objSpread (objSpread [("accept", "\x2a/\x2a")] lp.headers) ctx.headers

/-- The legacy `createUploadLink` subscriber up to the `fetcher` call. -/
def legacyCreateUploadLinkRequest (abortSupported : Bool) (lp : LinkProps) (ctx : RequestContext) (op : Operation) : Except JsError FetchCall :=
  match legacyBodyParts lp ctx op with
  | .error e => .error e
  | .ok parts =>
    let cs := createSignalIfSupported abortSupported
    .ok { uri := ctx.uri.getD (lp.uri.getD "/graphql"),
          method := "POST",
          headers := legacyHeaders lp ctx,
          credentials := ctx.credentials.orElse (fun _ => lp.credentials),
          signal := cs.1,
          body := .formBody parts }

/-- The `createUploadLink` dispatcher from `src/index.mjs`: the `multipart`
prop selects `multipartUploadLink`, otherwise `jsonUploadLink`. -/
def createUploadLinkRequest (multipart abortSupported : Bool) (lp : LinkProps) (ctx : RequestContext) (op : Operation) : Except JsError FetchCall :=
  if multipart then multipartUploadLinkRequest abortSupported lp ctx op
  else jsonUploadLinkRequest lp ctx op

/-- The JavaScript environment facts the source sniffs at construction
time: whether a global `fetch` binding (with a callable value) exists,
whether `window` exists, and whether `AbortController` exists. -/
structure JsEnv where
  globalFetch : Bool
  hasWindow : Bool
  abortSupported : Bool

/-- Remediation text of the construction-time error thrown by
`warnIfNoFetch` (the source template, abridged to its first sentence; the
suggested library is `unfetch` in a browser and `node-fetch` otherwise). -/
def fetchGuidanceMessage (hasWindow : Bool) : String :=
  "fetch is not found globally and no fetcher passed, to fix pass a fetch for your environment like https://www.npmjs.com/package/"
    ++ (if hasWindow then "unfetch" else "node-fetch")

/-- The source `warnIfNoFetch`: throws when no fetcher was passed and no
global `fetch` exists. -/
def warnIfNoFetch (fetcherPassed : Bool) (env : JsEnv) : Except JsError Unit :=
  if !fetcherPassed && !env.globalFetch then
    .error { name := "Error", message := fetchGuidanceMessage env.hasWindow }
  else .ok ()

/-- Construction of `multipartUploadLink`: runs `warnIfNoFetch` before
returning the link. -/
def multipartUploadLinkConstruct (fetcherPassed : Bool) (env : JsEnv) : Except JsError Unit :=
  match warnIfNoFetch fetcherPassed env with
  | .error e => .error e
  | .ok _ => .ok ()

/-- The error raised by resolving an absent global binding. -/
def referenceErrorFetch : JsError :=
  { name := "ReferenceError", message := "fetch is not defined" }

/-- Construction of `jsonUploadLink`: the destructuring default
`fetch: linkFetch = fetch` resolves the global `fetch` binding when no
fetcher prop was passed; with no such binding the resolution throws a
`ReferenceError` (with no remediation text) at construction time. -/
def jsonUploadLinkConstruct (fetcherPassed : Bool) (env : JsEnv) : Except JsError Unit :=
  if fetcherPassed then .ok ()
  else if env.globalFetch then .ok ()
  else .error referenceErrorFetch

/-- Construction via the `createUploadLink` dispatcher. -/
def createUploadLinkConstruct (multipart fetcherPassed : Bool) (env : JsEnv) : Except JsError Unit :=
  if multipart then multipartUploadLinkConstruct fetcherPassed env
  else jsonUploadLinkConstruct fetcherPassed env

/-- Character-list prefix test (used instead of the byte-level builtin so
that concrete instances evaluate). -/
def strHasPrefix (pre s : String) : Bool :=
  List.isPrefixOf pre.toList s.toList

/-- Whether an error message carries the remediation guidance of
`warnIfNoFetch`. -/
def hasRemediationGuidance (e : JsError) : Bool :=
  strHasPrefix "fetch is not found globally" e.message

/-- Whether an error carries the payload-serialization tag of the
multipart links. -/
def isPayloadSerializationTagged (e : JsError) : Bool :=
  strHasPrefix "Network request failed. Payload is not serializable:" e.message

/-- A response body as handed to `JSON.parse`: either text that parses to
a value, or text the parser rejects.  The parse outcome of the external
builtin is part of the input, the classifier only dispatches on it. -/
inductive BodyText where
  | jsonText (v : JValue)
  | invalidJson (raw : String)

/-- Dispatch view of `JSON.parse`. -/
def jsParse : BodyText → Option JValue
  | .jsonText v => some v
  | .invalidJson _ => none

/-- The raw text attached to a parse error. -/
def rawBodyText : BodyText → String
  | .jsonText v => (stringifyValue v).getD ""
  | .invalidJson raw => raw

/-- An HTTP response as the links consume it. -/
structure HttpResponse where
  status : Nat
  statusText : String
  body : BodyText

/-- The fetch `Response.ok` flag: status in the 2xx range. -/
def respOk (r : HttpResponse) : Bool :=
  decide (200 ≤ r.status) && decide (r.status < 300)

/-- The classified errors raised by `throwServerError` and the parse
branch of `parseAndCheckResponse`. -/
inductive ClassifiedError where
  | parseError (raw : String) (status : Nat)
  | networkError (status : Nat) (result : JValue) (message : String)
  | serverDataError (result : JValue) (message : String)
deriving Repr

/-- JavaScript `result.hasOwnProperty(k)` on a parsed body. -/
def hasOwnProp : JValue → String → Bool
  | .jobj fields, k => fields.any (fun p => p.1 == k)
  | _, _ => false

/-- Message of the network error (`Response not successful: ...`). -/
def networkErrorMessage (status : Nat) : String :=
  "Response not successful: Received status code " ++ Nat.repr status

/-- Message of the server-data error, naming the operation. -/
def serverDataErrorMessage (opName : String) : String :=
  "Server response was missing for query \x27" ++ opName ++ "\x27."

/-- The source `parseAndCheckResponse`: read the body text and parse it
(a parse failure rejects before any other check runs); then reject with a
network error when the status is at least 300; then reject with a
server-data error when the parsed body has neither `data` nor `errors`;
otherwise succeed with the parsed body. -/
def parseAndCheckResponse (operationName : String) (r : HttpResponse) : Except ClassifiedError JValue :=
  match jsParse r.body with
  | none => .error (.parseError (rawBodyText r.body) r.status)
  | some result =>
    if 300 ≤ r.status then
      .error (.networkError r.status result (networkErrorMessage r.status))
    else if !hasOwnProp result "data" && !hasOwnProp result "errors" then
      .error (.serverDataError result (serverDataErrorMessage operationName))
    else .ok result

/-- How a dispatched fetch settles: a response, or a rejection (an abort,
or any other failure). -/
inductive FetchRejection where
  | abortError
  | otherError (name message : String)
deriving DecidableEq, Repr

/-- Settlement of the fetch promise. -/
inductive FetchOutcome where
  | resolved (r : HttpResponse)
  | rejected (e : FetchRejection)

/-- Everything that can reach a link's final `catch`. -/
inductive PipelineError where
  | classified (e : ClassifiedError)
  | fetchFailed (e : FetchRejection)
deriving Repr

/-- The `name` property of the error object reaching the `catch`. -/
def pipelineErrName : PipelineError → String
  | .classified (.parseError _ _) => "SyntaxError"
  | .classified _ => "Error"
  | .fetchFailed .abortError => "AbortError"
  | .fetchFailed (.otherError n _) => n

/-- What the pipeline emits to the observer. -/
inductive Emission where
  | nextResult (v : JValue)
  | completed
  | errored (e : PipelineError)
deriving Repr

/-- The `multipartUploadLink` catch handler: an AbortError returns without
emitting anything, every other error is emitted on the error channel. -/
def multipartCatch (e : PipelineError) : List Emission :=
  if pipelineErrName e == "AbortError" then [] else [.errored e]

/-- Emissions of the `multipartUploadLink` promise chain for a settled
fetch: classify the response, emit result-then-complete on success, and
route every failure through the catch handler. -/
def multipartEmissions (operationName : String) : FetchOutcome → List Emission
  | .resolved r =>
    match parseAndCheckResponse operationName r with
    | .ok result => [.nextResult result, .completed]
    | .error ce => multipartCatch (.classified ce)
  | .rejected e => multipartCatch (.fetchFailed e)

/-- The status error thrown by `jsonUploadLink` on a non-ok response. -/
def jsonStatusError (r : HttpResponse) : PipelineError :=
  .fetchFailed (.otherError "Error" (Nat.repr r.status ++ " (" ++ r.statusText ++ ")"))

/-- Emissions of the `jsonUploadLink` promise chain: non-ok status throws,
the body is parsed as JSON with no envelope check, and the final catch
emits every error (it has no AbortError carve-out). -/
def jsonEmissions : FetchOutcome → List Emission
  | .resolved r =>
    if !respOk r then [.errored (jsonStatusError r)]
    else
      match jsParse r.body with
      | some result => [.nextResult result, .completed]
      | none =>
        [.errored (.fetchFailed (.otherError "SyntaxError" (rawBodyText r.body)))]
  | .rejected e => [.errored (.fetchFailed e)]

/-- The teardown returned by the multipart subscriber:
`if (controller) controller.abort()`.  Returns whether `abort` is invoked. -/
def multipartTeardown (controller : Bool) : Bool := controller

/-- Transport contract for cancellation: when an abort reaches a fetch
whose call had the signal attached, the in-flight fetch rejects with an
AbortError; otherwise the call settles as it would have anyway. -/
def outcomeAfterCancel (abortReachesFetch : Bool) (uncancelled : FetchOutcome) : FetchOutcome :=
  if abortReachesFetch then .rejected .abortError else uncancelled

/-- End-to-end cancellation scenario for `multipartUploadLink`: the signal
factory runs, the signal is attached when a controller exists, cancel
invokes the teardown before the fetch settles, and the chain then emits. -/
def multipartCancelScenario (abortSupported : Bool) (operationName : String) (uncancelled : FetchOutcome) : List Emission :=
  let cs := createSignalIfSupported abortSupported
  let abortInvoked := multipartTeardown cs.1
  multipartEmissions operationName (outcomeAfterCancel (cs.1 && abortInvoked) uncancelled)

/-- Whether a wire body is multipart. -/
def isMultipartBody : WireBody → Bool
  | .formBody _ => true
  | .textBody _ => false

/-- Field names of a multipart body, in order (empty for a JSON body). -/
def partNames : WireBody → List String
  | .textBody _ => []
  | .formBody parts => parts.map Prod.fst

/-- Part names of the fetch call a request produced, when it produced one. -/
def requestPartNames : Except JsError FetchCall → Option (List String)
  | .ok fc => some (partNames fc.body)
  | .error _ => none

/-- A header of the fetch call a request produced, when it produced one. -/
def requestHeader (req : Except JsError FetchCall) (k : String) : Option String :=
  match req with
  | .ok fc => lookupKey fc.headers k
  | .error _ => none

/-- Whether a classification outcome is a network error. -/
def isNetworkErrorOutcome : Except ClassifiedError JValue → Bool
  | .error (.networkError _ _ _) => true
  | _ => false


/-- First part of a multipart body under a given field name. -/
def findPart (b : WireBody) (k : String) : Option FormPart :=
  match b with
  | .formBody parts => (parts.find? (fun p => p.1 == k)).map Prod.snd
  | .textBody _ => none

/-- Whether a produced request (if any) carries a multipart body. -/
def requestIsMultipart : Except JsError FetchCall → Bool
  | .ok fc => isMultipartBody fc.body
  | .error _ => false

/-- Whether the produced request (if any) attached an abort signal. -/
def requestSignal : Except JsError FetchCall → Option Bool
  | .ok fc => some fc.signal
  | .error _ => none

/-- A concrete file handle used in the concrete evaluations. -/
def sampleFile : UFile := { name := "a.txt", content := "DATA" }

/-- A concrete upload operation: one file directly under `variables`. -/
def uploadOp : Operation :=
  { operationName := "upload", query := "mutation M",
    vars := [("file", JValue.jfile sampleFile)], extensions := none }

/-- A concrete file-free operation. -/
def plainOp : Operation :=
  { operationName := "q", query := "query Q",
    vars := [("id", JValue.jnum 7)], extensions := none }

/-- A concrete operation whose variables hold an unserializable
(BigInt-like) leaf. -/
def bigIntOp : Operation :=
  { operationName := "q", query := "query Q",
    vars := [("big", JValue.jcirc "BigInt")], extensions := none }

/-- Link props left at their defaults. -/
def noProps : LinkProps := {}

/-- An empty per-request context. -/
def emptyContext : RequestContext := {}

/-- A concrete successful response carrying a `data` field. -/
def dataResp : HttpResponse :=
  { status := 200, statusText := "OK",
    body := .jsonText (.jobj [("data", JValue.jnull)]) }


/-- The request operation record of `jsonUploadLink`, as a value tree. -/
def jsonOpRecord (lp : LinkProps) (op : Operation) : JValue :=
  JValue.jobj (jsonRequestOperation op lp.includeExtensions)

/-- Whether a produced request attached an abort signal (false when the
subscriber threw before fetching). -/
def attachesSignal : Except JsError FetchCall → Bool
  | .ok fc => fc.signal
  | .error _ => false

/-- Soundness of one child step, assuming soundness of extraction on the
child itself: an extracted entry's path extends the child path and
resolves, inside the child, to the recorded file. -/
theorem extractChild_sound_of (v : JValue) (cp q : List PathSeg) (f : UFile)
    (hsound : ∀ p' q' f', (q', f') ∈ extractFromValue v p' →
      ∃ r, q' = p' ++ r ∧ getAtPath v r = some (.jfile f'))
    (hmem : (q, f) ∈ extractChild v cp) :
    ∃ r, q = cp ++ r ∧ getAtPath v r = some (.jfile f) := by
  cases v
  case jfile f' =>
    simp [extractChild] at hmem
    exact ⟨[], by simp [hmem.1], by simp [getAtPath, hmem.2]⟩
  all_goals
    simp only [extractChild] at hmem
  all_goals
    exact hsound _ _ _ hmem

/-- Soundness of the element walk, assuming soundness of extraction on
every element: every extracted entry comes from the element at some
offset `j`, under path segment `idx (i + j)`. -/
theorem extractFromElems_sound_aux :
    ∀ (l : List JValue),
      (∀ v ∈ l, ∀ p' q' f', (q', f') ∈ extractFromValue v p' →
        ∃ r, q' = p' ++ r ∧ getAtPath v r = some (.jfile f')) →
      ∀ (i : Nat) (p q : List PathSeg) (f : UFile), (q, f) ∈ extractFromElems l i p →
        ∃ j r vj, l[j]? = some vj ∧ q = p ++ PathSeg.idx (i + j) :: r
          ∧ getAtPath vj r = some (.jfile f) := by
  intro l
  induction l with
  | nil => intro _ i p q f hmem; simp [extractFromElems] at hmem
  | cons v rest ihl =>
    intro IH i p q f hmem
    simp only [extractFromElems_cons, List.mem_append] at hmem
    cases hmem with
    | inl h =>
      obtain ⟨r, hq, hg⟩ :=
        extractChild_sound_of v (p ++ [.idx i]) q f (IH v (by simp)) h
      exact ⟨0, r, v, by simp, by simpa using hq, hg⟩
    | inr h =>
      obtain ⟨j, r, vj, hget, hq, hg⟩ :=
        ihl (fun v' hv' => IH v' (by simp [hv'])) (i + 1) p q f h
      refine ⟨j + 1, r, vj, by simpa using hget, ?_, hg⟩
      have : i + 1 + j = i + (j + 1) := by omega
      rwa [this] at hq

/-- Soundness of the field walk, assuming soundness of extraction on every
field value: every extracted entry comes from the field found (uniquely,
the keys being distinct) under its key. -/
theorem extractFromFields_sound_aux :
    ∀ (l : List (String × JValue)),
      (∀ e ∈ l, ∀ p' q' f', (q', f') ∈ extractFromValue e.2 p' →
        ∃ r, q' = p' ++ r ∧ getAtPath e.2 r = some (.jfile f')) →
      (l.map Prod.fst).Nodup →
      ∀ (p q : List PathSeg) (f : UFile), (q, f) ∈ extractFromFields l p →
        ∃ k vk r, l.find? (fun e => e.1 == k) = some (k, vk)
          ∧ q = p ++ PathSeg.key k :: r ∧ getAtPath vk r = some (.jfile f) := by
  intro l
  induction l with
  | nil => intro _ _ p q f hmem; simp [extractFromFields] at hmem
  | cons e rest ihl =>
    obtain ⟨k0, v0⟩ := e
    intro IH hnd p q f hmem
    simp only [List.map_cons, List.nodup_cons] at hnd
    simp only [extractFromFields_cons, List.mem_append] at hmem
    cases hmem with
    | inl h =>
      obtain ⟨r, hq, hg⟩ :=
        extractChild_sound_of v0 (p ++ [.key k0]) q f (IH (k0, v0) (by simp)) h
      exact ⟨k0, v0, r, by simp [List.find?], by simpa using hq, hg⟩
    | inr h =>
      obtain ⟨k, vk, r, hfind, hq, hg⟩ :=
        ihl (fun e' he' => IH e' (by simp [he'])) hnd.2 p q f h
      have hkmem : k ∈ rest.map Prod.fst := by
        have := List.mem_of_find?_eq_some hfind
        exact List.mem_map_of_mem Prod.fst this
      have hne : (k0 == k) = false := by
        have : k0 ≠ k := fun h0 => hnd.1 (h0 ▸ hkmem)
        simpa using this
      refine ⟨k, vk, r, ?_, hq, hg⟩
      rw [List.find?_cons_of_neg _ (by simp [hne]), hfind]

/-- Elements of a well-formed element list are well-formed. -/
theorem wfKeysElems_mem {l : List JValue} {v : JValue}
    (hwf : wfKeysElems l = true) (hv : v ∈ l) : wfKeys v = true := by
  induction l with
  | nil => simp at hv
  | cons a rest ihr =>
    simp only [wfKeysElems, Bool.and_eq_true] at hwf
    rcases List.mem_cons.mp hv with h | h
    · exact h ▸ hwf.1
    · exact ihr hwf.2 h

/-- Values of a well-formed field list are well-formed. -/
theorem wfKeysFields_mem {l : List (String × JValue)} {e : String × JValue}
    (hwf : wfKeysFields l = true) (he : e ∈ l) : wfKeys e.2 = true := by
  induction l with
  | nil => simp at he
  | cons a rest ihr =>
    obtain ⟨ka, va⟩ := a
    simp only [wfKeysFields, Bool.and_eq_true] at hwf
    rcases List.mem_cons.mp he with h | h
    · rw [h]; exact hwf.1
    · exact ihr hwf.2 h

/-- Fuel-indexed soundness of extraction on a node. -/
theorem extractFromValue_sound_aux :
    ∀ (n : Nat) (v : JValue), sizeOf v ≤ n → wfKeys v = true →
      ∀ (p q : List PathSeg) (f : UFile), (q, f) ∈ extractFromValue v p →
        ∃ r, q = p ++ r ∧ getAtPath v r = some (.jfile f) := by
  intro n
  induction n with
  | zero => intro v hv; cases v <;> simp at hv
  | succ n ihn =>
    intro v hv hwf p q f hmem
    cases v with
    | jarr elems =>
      simp only [extractFromValue] at hmem
      simp only [wfKeys] at hwf
      have hIH : ∀ v' ∈ elems, ∀ p' q' f', (q', f') ∈ extractFromValue v' p' →
          ∃ r, q' = p' ++ r ∧ getAtPath v' r = some (.jfile f') := by
        intro v' hv' p' q' f' hm
        have hsz : sizeOf v' ≤ n := by
          have h1 := List.sizeOf_lt_of_mem hv'
          have h2 : sizeOf (JValue.jarr elems) = 1 + sizeOf elems := by
            simp
          omega
        exact ihn v' hsz (wfKeysElems_mem hwf hv') p' q' f' hm
      obtain ⟨j, r, vj, hget, hq, hg⟩ :=
        extractFromElems_sound_aux elems hIH 0 p q f hmem
      exact ⟨.idx j :: r, by simpa using hq, by simp [getAtPath, hget, hg]⟩
    | jobj fields =>
      simp only [extractFromValue] at hmem
      simp only [wfKeys, Bool.and_eq_true, decide_eq_true_eq] at hwf
      have hIH : ∀ e ∈ fields, ∀ p' q' f', (q', f') ∈ extractFromValue e.2 p' →
          ∃ r, q' = p' ++ r ∧ getAtPath e.2 r = some (.jfile f') := by
        intro e he p' q' f' hm
        have hsz : sizeOf e.2 ≤ n := by
          have h1 := List.sizeOf_lt_of_mem he
          have h2 : sizeOf (JValue.jobj fields) = 1 + sizeOf fields := by
            simp
          have h3 : sizeOf e.2 < sizeOf e := by
            obtain ⟨a, b⟩ := e
            simp
          omega
        exact ihn e.2 hsz (wfKeysFields_mem hwf.2 he) p' q' f' hm
      obtain ⟨k, vk, r, hfind, hq, hg⟩ :=
        extractFromFields_sound_aux fields hIH hwf.1 p q f hmem
      exact ⟨.key k :: r, hq, by simp [getAtPath, hfind, hg]⟩
    | jnull => simp [extractFromValue] at hmem
    | jbool b => simp [extractFromValue] at hmem
    | jnum m => simp [extractFromValue] at hmem
    | jstr s => simp [extractFromValue] at hmem
    | jfile f' => simp [extractFromValue] at hmem
    | jcirc t => simp [extractFromValue] at hmem

/-- Soundness of `extractFiles` on a well-formed tree: every extracted
entry's path resolves, inside the tree, to exactly that file — the path
list records the file's true location. -/
theorem extractFiles_sound (v : JValue) (hwf : wfKeys v = true)
    (q : List PathSeg) (f : UFile) (hmem : (q, f) ∈ extractFiles v) :
    getAtPath v q = some (.jfile f) := by
  obtain ⟨r, hq, hg⟩ :=
    extractFromValue_sound_aux (sizeOf v) v le_rfl hwf [] q f hmem
  simpa [hq] using hg

/-- Shifting the child path accumulator shifts every recorded path,
assuming the same for extraction on the child itself. -/
theorem extractChild_shift_of (v : JValue) (p : List PathSeg)
    (hsh : ∀ q, extractFromValue v (p ++ q)
      = (extractFromValue v q).map (fun e => (p ++ e.1, e.2))) :
    ∀ cp, extractChild v (p ++ cp) = (extractChild v cp).map (fun e => (p ++ e.1, e.2)) := by
  cases v
  case jfile f => intro cp; simp [extractChild]
  all_goals intro cp
  all_goals simp only [extractChild]
  all_goals exact hsh cp

/-- Shifting the accumulator in the element walk shifts every path. -/
theorem extractFromElems_shift_aux :
    ∀ (l : List JValue) (p : List PathSeg),
      (∀ v ∈ l, ∀ q, extractFromValue v (p ++ q)
        = (extractFromValue v q).map (fun e => (p ++ e.1, e.2))) →
      ∀ i q, extractFromElems l i (p ++ q)
        = (extractFromElems l i q).map (fun e => (p ++ e.1, e.2)) := by
  intro l p
  induction l with
  | nil => intro _ i q; simp [extractFromElems]
  | cons v rest ihl =>
    intro IH i q
    have h1 := extractChild_shift_of v p (IH v (List.mem_cons_self v rest)) (q ++ [.idx i])
    have h2 := ihl (fun v' hv' => IH v' (List.mem_cons_of_mem v hv')) (i + 1) q
    simp only [extractFromElems_cons, List.map_append]
    rw [show p ++ q ++ [PathSeg.idx i] = p ++ (q ++ [PathSeg.idx i]) by simp]
    rw [h1, h2]

/-- Shifting the accumulator in the field walk shifts every path. -/
theorem extractFromFields_shift_aux :
    ∀ (l : List (String × JValue)) (p : List PathSeg),
      (∀ e ∈ l, ∀ q, extractFromValue e.2 (p ++ q)
        = (extractFromValue e.2 q).map (fun x => (p ++ x.1, x.2))) →
      ∀ q, extractFromFields l (p ++ q)
        = (extractFromFields l q).map (fun x => (p ++ x.1, x.2)) := by
  intro l p
  induction l with
  | nil => intro _ q; simp [extractFromFields]
  | cons e rest ihl =>
    obtain ⟨k0, v0⟩ := e
    intro IH q
    have h1 := extractChild_shift_of v0 p (IH (k0, v0) (List.mem_cons_self (k0, v0) rest)) (q ++ [.key k0])
    have h2 := ihl (fun e' he' => IH e' (List.mem_cons_of_mem (k0, v0) he')) q
    simp only [extractFromFields_cons, List.map_append]
    rw [show p ++ q ++ [PathSeg.key k0] = p ++ (q ++ [PathSeg.key k0]) by simp]
    rw [h1, h2]

/-- Fuel-indexed path-shift property of extraction. -/
theorem extractFromValue_shift_aux :
    ∀ (n : Nat) (v : JValue), sizeOf v ≤ n →
      ∀ (p q : List PathSeg), extractFromValue v (p ++ q)
        = (extractFromValue v q).map (fun e => (p ++ e.1, e.2)) := by
  intro n
  induction n with
  | zero => intro v hv; cases v <;> simp at hv
  | succ n ihn =>
    intro v hv p q
    cases v with
    | jarr elems =>
      simp only [extractFromValue]
      refine extractFromElems_shift_aux elems p ?_ 0 q
      intro v' hv' q'
      have hsz : sizeOf v' ≤ n := by
        have h1 := List.sizeOf_lt_of_mem hv'
        have h2 : sizeOf (JValue.jarr elems) = 1 + sizeOf elems := by simp
        omega
      exact ihn v' hsz p q'
    | jobj fields =>
      simp only [extractFromValue]
      refine extractFromFields_shift_aux fields p ?_ q
      intro e he q'
      have hsz : sizeOf e.2 ≤ n := by
        have h1 := List.sizeOf_lt_of_mem he
        have h2 : sizeOf (JValue.jobj fields) = 1 + sizeOf fields := by simp
        have h3 : sizeOf e.2 < sizeOf e := by
          obtain ⟨a, b⟩ := e
          simp
        omega
      exact ihn e.2 hsz p q'
    | jnull => simp [extractFromValue]
    | jbool b => simp [extractFromValue]
    | jnum m => simp [extractFromValue]
    | jstr s => simp [extractFromValue]
    | jfile f' => simp [extractFromValue]
    | jcirc t => simp [extractFromValue]

/-- Extraction at an accumulator path records exactly the root extraction
with that path prefixed. -/
theorem extractFromValue_at (v : JValue) (p : List PathSeg) :
    extractFromValue v p = (extractFiles v).map (fun e => (p ++ e.1, e.2)) := by
  have := extractFromValue_shift_aux (sizeOf v) v le_rfl p []
  simpa [extractFiles] using this

/-- The field walk distributes over list append. -/
theorem extractFromFields_append (l1 l2 : List (String × JValue)) (p : List PathSeg) :
    extractFromFields (l1 ++ l2) p = extractFromFields l1 p ++ extractFromFields l2 p := by
  induction l1 with
  | nil => simp [extractFromFields]
  | cons e rest ih =>
    obtain ⟨k0, v0⟩ := e
    simp [extractFromFields, ih]

/-- Files extracted from the `jsonUploadLink` request operation are exactly
the files of `variables`, with every path prefixed by the `variables` key
(when no extensions record is present). -/
theorem jsonRequestOperation_extract (op : Operation) (incl : Bool)
    (hext : op.extensions = none) :
    extractFiles (JValue.jobj (jsonRequestOperation op incl))
      = (extractFiles (JValue.jobj op.vars)).map
          (fun e => (PathSeg.key "variables" :: e.1, e.2)) := by
  have hA : extractFromFields
      (if op.operationName ≠ "" then [("operationName", JValue.jstr op.operationName)] else [])
      [] = [] := by
    split <;> simp [extractFromFields, extractChild, extractFromValue]
  have hB : extractFromFields
      (if op.vars.length ≠ 0 then [("variables", JValue.jobj op.vars)] else [])
      [] = (extractFiles (JValue.jobj op.vars)).map
            (fun e => (PathSeg.key "variables" :: e.1, e.2)) := by
    split
    case isTrue h =>
      have := extractFromValue_at (JValue.jobj op.vars) [PathSeg.key "variables"]
      simp only [extractFromFields, extractChild, List.nil_append, List.append_nil]
      simpa using this
    case isFalse h =>
      have hv : op.vars = [] := by
        have := List.length_eq_zero.mp (by omega : op.vars.length = 0)
        exact this
      simp [extractFromFields, hv, extractFiles, extractFromValue]
  simp only [extractFiles, extractFromValue, jsonRequestOperation, hext]
  rw [extractFromFields_append, extractFromFields_append, extractFromFields_append]
  rw [hA, hB]
  simp [extractFromFields, extractChild, extractFromValue, extractFiles]

/-- After assigning key `k`, looking up `k` finds the assigned value
(replacement case). -/
theorem find?_map_objSet (o : List (String × String)) (k v : String)
    (h : o.any (fun p => p.1 == k) = true) :
    (o.map (fun p => if p.1 == k then (k, v) else p)).find? (fun p => p.1 == k)
      = some (k, v) := by
  induction o with
  | nil => simp at h
  | cons p rest ih =>
    by_cases hp : (p.1 == k) = true
    · simp only [List.map_cons, hp, if_true]
      rw [List.find?_cons_of_pos _ (by simp)]
    · simp only [List.any_cons, hp, Bool.false_or] at h
      simp only [List.map_cons, hp, if_false]
      rw [List.find?_cons_of_neg _ (by simp [hp]), ih h]

/-- Property assignment then lookup of the assigned key yields the
assigned value. -/
theorem lookupKey_objSet_self (o : List (String × String)) (k v : String) :
    lookupKey (objSet o k v) k = some v := by
  unfold objSet
  split
  case isTrue h =>
    unfold lookupKey
    rw [find?_map_objSet o k v h]
    rfl
  case isFalse h =>
    have hnone : o.find? (fun p => p.1 == k) = none := by
      rw [List.find?_eq_none]
      intro x hx hc
      exact h (List.any_eq_true.mpr ⟨x, hx, hc⟩)
    unfold lookupKey
    rw [List.find?_append, hnone]
    simp [List.find?]

/-- Property assignment leaves lookups of other keys unchanged. -/
theorem lookupKey_objSet_ne (o : List (String × String)) (k v k' : String)
    (hne : k' ≠ k) : lookupKey (objSet o k v) k' = lookupKey o k' := by
  unfold objSet
  split
  case isTrue h =>
    clear h
    unfold lookupKey
    induction o with
    | nil => simp
    | cons p rest ih =>
      by_cases hp : (p.1 == k) = true
      · have hk : p.1 = k := by simpa using hp
        have h1 : (k == k') = false := by
          simpa using fun hc => hne hc.symm
        have h2 : (p.1 == k') = false := by rw [hk]; exact h1
        simp only [List.map_cons, hp, if_true]
        rw [List.find?_cons_of_neg _ (by simp [h1]),
            List.find?_cons_of_neg _ (by simp [h2]), ih]
      · simp only [List.map_cons, hp, if_false]
        by_cases hp' : (p.1 == k') = true
        · rw [List.find?_cons_of_pos _ (by simp [hp']),
              List.find?_cons_of_pos _ (by simp [hp'])]
          simp
        · rw [List.find?_cons_of_neg _ (by simp [hp']),
              List.find?_cons_of_neg _ (by simp [hp']), ih]
  case isFalse h =>
    unfold lookupKey
    rw [List.find?_append]
    have h1 : (k == k') = false := by
      simp only [beq_eq_false_iff_ne, ne_eq]
      exact fun hc => hne hc.symm
    have : [(k, v)].find? (fun p => p.1 == k') = none := by
      simp [List.find?, h1]
    rw [this]
    cases o.find? (fun p => p.1 == k') <;> simp

/-- Spreading an update whose keys all avoid `k` leaves the lookup of `k`
unchanged. -/
theorem lookupKey_objSpread_not_mem :
    ∀ (upd base : List (String × String)) (k : String),
      (∀ p ∈ upd, p.1 ≠ k) →
      lookupKey (objSpread base upd) k = lookupKey base k := by
  intro upd
  induction upd with
  | nil => intro base k _; rfl
  | cons p rest ih =>
    intro base k h
    have hstep : objSpread base (p :: rest) = objSpread (objSet base p.1 p.2) rest := rfl
    rw [hstep, ih _ k (fun q hq => h q (List.mem_cons_of_mem p hq))]
    exact lookupKey_objSet_ne base p.1 p.2 k
      (fun hc => h p (List.mem_cons_self p rest) hc.symm)

/-- Spreading an update with distinct keys makes every one of its bindings
win the subsequent lookup: the later source overrides the earlier one. -/
theorem lookupKey_objSpread_mem :
    ∀ (upd base : List (String × String)) (k v : String),
      (upd.map Prod.fst).Nodup → (k, v) ∈ upd →
      lookupKey (objSpread base upd) k = some v := by
  intro upd
  induction upd with
  | nil => intro base k v _ hmem; simp at hmem
  | cons p rest ih =>
    intro base k v hnd hmem
    simp only [List.map_cons, List.nodup_cons] at hnd
    have hstep : objSpread base (p :: rest) = objSpread (objSet base p.1 p.2) rest := rfl
    rcases List.mem_cons.mp hmem with h | h
    · subst h
      have hkeys : ∀ q ∈ rest, q.1 ≠ k := by
        intro q hq hqk
        apply hnd.1
        show k ∈ List.map Prod.fst rest
        rw [← hqk]
        exact List.mem_map_of_mem Prod.fst hq
      rw [hstep, lookupKey_objSpread_not_mem rest _ k hkeys]
      exact lookupKey_objSet_self base k v
    · rw [hstep]
      exact ih _ k v hnd.2 h

/-- Spreading onto a key-disjoint accumulator with distinct keys is plain
append. -/
theorem objSpread_disjoint :
    ∀ (l acc : List (String × String)),
      (l.map Prod.fst).Nodup →
      (∀ p ∈ l, ∀ q ∈ acc, q.1 ≠ p.1) →
      objSpread acc l = acc ++ l := by
  intro l
  induction l with
  | nil => intro acc _ _; simp [objSpread]
  | cons p rest ih =>
    intro acc hnd hdisj
    simp only [List.map_cons, List.nodup_cons] at hnd
    have hset : objSet acc p.1 p.2 = acc ++ [p] := by
      unfold objSet
      have hany : acc.any (fun q => q.1 == p.1) = false := by
        rw [List.any_eq_false]
        intro q hq
        simpa using hdisj p (List.mem_cons_self p rest) q hq
      rw [hany]
      simp
    have hstep : objSpread acc (p :: rest) = objSpread (objSet acc p.1 p.2) rest := rfl
    rw [hstep, hset, ih (acc ++ [p]) hnd.2 ?_]
    · simp
    · intro x hx q hq
      rcases List.mem_append.mp hq with h | h
      · exact hdisj x (List.mem_cons_of_mem p hx) q h
      · have : q = p := by simpa using h
        subst this
        intro hc
        exact hnd.1 (hc ▸ List.mem_map_of_mem Prod.fst hx)

/-- Spreading a distinct-keyed map onto the empty object is the map
itself. -/
theorem objSpread_nil (l : List (String × String)) (hnd : (l.map Prod.fst).Nodup) :
    objSpread [] l = l := by
  have := objSpread_disjoint l [] hnd (by intro p _ q hq; simp at hq)
  simpa using this

/-- The file map has exactly one entry per extracted file. -/
theorem fileMapEntries_length :
    ∀ (files : List (List PathSeg × UFile)) (i : Nat),
      (fileMapEntries i files).length = files.length := by
  intro files
  induction files with
  | nil => intro i; rfl
  | cons e rest ih => intro i; simp [fileMapEntries, ih]

/-- Entry `j` of the file map is keyed by the stringified index `i + j`
and holds the one-element list of the file's rendered path. -/
theorem fileMapEntries_get? :
    ∀ (files : List (List PathSeg × UFile)) (i j : Nat),
      (fileMapEntries i files)[j]?
        = (files[j]?).map
            (fun e => (Nat.repr (i + j), JValue.jarr [JValue.jstr (renderPath e.1)])) := by
  intro files
  induction files with
  | nil => intro i j; simp [fileMapEntries]
  | cons e rest ih =>
    intro i j
    cases j with
    | zero => simp [fileMapEntries]
    | succ j' =>
      simp only [fileMapEntries, List.getElem?_cons_succ, ih (i + 1) j']
      have : i + 1 + j' = i + (j' + 1) := by omega
      rw [this]

/-- C3, amended: the response classifier maps a sub-300 status whose body
parses as JSON owning `data` to success; a status of at least 300 whose
body parses as JSON to a NetworkError; a sub-300 status whose body parses
as JSON owning neither `data` nor `errors` to a ServerDataError; and a
body that fails to parse to a ParseError at any status (so a 500 with a
non-JSON body is a ParseError, not a NetworkError — the amendment). -/
theorem C3_classifier_amended :
    (∀ (opName : String) (r : HttpResponse) (v : JValue),
      r.status < 300 → jsParse r.body = some v → hasOwnProp v "data" = true →
      parseAndCheckResponse opName r = .ok v)
    ∧ (∀ (opName : String) (r : HttpResponse) (v : JValue),
      300 ≤ r.status → jsParse r.body = some v →
      parseAndCheckResponse opName r
        = .error (.networkError r.status v (networkErrorMessage r.status)))
    ∧ (∀ (opName : String) (r : HttpResponse) (v : JValue),
      r.status < 300 → jsParse r.body = some v →
      hasOwnProp v "data" = false → hasOwnProp v "errors" = false →
      parseAndCheckResponse opName r
        = .error (.serverDataError v (serverDataErrorMessage opName)))
    ∧ (∀ (opName : String) (r : HttpResponse),
      jsParse r.body = none →
      parseAndCheckResponse opName r
        = .error (.parseError (rawBodyText r.body) r.status)) := by
  refine ⟨?_, ?_, ?_, ?_⟩
  · intro opName r v hst hp hd
    simp only [parseAndCheckResponse, hp]
    rw [if_neg (by omega), if_neg (by simp [hd])]
  · intro opName r v hst hp
    simp only [parseAndCheckResponse, hp]
    rw [if_pos hst]
  · intro opName r v hst hp hd he
    simp only [parseAndCheckResponse, hp]
    rw [if_neg (by omega), if_pos (by simp [hd, he])]
  · intro opName r hp
    simp only [parseAndCheckResponse, hp]

/-- C3, counterexample to the claim as stated: a 500 status with a body
that is not JSON is classified as a ParseError, not a NetworkError. -/
theorem C3_parse_before_status_counterexample :
    parseAndCheckResponse "q"
        { status := 500, statusText := "Internal Server Error", body := .invalidJson "oops" }
      = .error (.parseError "oops" 500)
    ∧ isNetworkErrorOutcome (parseAndCheckResponse "q"
        { status := 500, statusText := "Internal Server Error", body := .invalidJson "oops" })
      = false :=
  ⟨rfl, rfl⟩

/-- C3, witness: the four amended classifier branches at concrete
responses. -/
theorem C3_classifier_witness :
    parseAndCheckResponse "q" dataResp = .ok (.jobj [("data", JValue.jnull)])
    ∧ parseAndCheckResponse "q"
        { status := 500, statusText := "ISE", body := .jsonText (.jobj [("data", JValue.jnull)]) }
      = .error (.networkError 500 (.jobj [("data", JValue.jnull)]) (networkErrorMessage 500))
    ∧ parseAndCheckResponse "q"
        { status := 200, statusText := "OK", body := .jsonText (.jobj [("foo", JValue.jnum 1)]) }
      = .error (.serverDataError (.jobj [("foo", JValue.jnum 1)]) (serverDataErrorMessage "q"))
    ∧ parseAndCheckResponse "q"
        { status := 200, statusText := "OK", body := .invalidJson "nope" }
      = .error (.parseError "nope" 200) :=
  ⟨C3_classifier_amended.1 "q" dataResp (.jobj [("data", JValue.jnull)])
      (by decide) rfl (by decide),
   C3_classifier_amended.2.1 "q"
      { status := 500, statusText := "ISE", body := .jsonText (.jobj [("data", JValue.jnull)]) }
      (.jobj [("data", JValue.jnull)]) (by decide) rfl,
   C3_classifier_amended.2.2.1 "q"
      { status := 200, statusText := "OK", body := .jsonText (.jobj [("foo", JValue.jnum 1)]) }
      (.jobj [("foo", JValue.jnum 1)]) (by decide) rfl (by decide) (by decide),
   C3_classifier_amended.2.2.2 "q"
      { status := 200, statusText := "OK", body := .invalidJson "nope" } rfl⟩

/-- C4, amended: when the body parses as JSON, a status of at least 300
raises a NetworkError regardless of the envelope shape; but the body parse
is evaluated first, so a parse failure raises a ParseError regardless of
status — the status check does not override a parse failure. -/
theorem C4_status_check_amended :
    (∀ (opName : String) (r : HttpResponse) (v : JValue),
      jsParse r.body = some v → 300 ≤ r.status →
      parseAndCheckResponse opName r
        = .error (.networkError r.status v (networkErrorMessage r.status)))
    ∧ (∀ (opName : String) (r : HttpResponse),
      jsParse r.body = none →
      parseAndCheckResponse opName r
        = .error (.parseError (rawBodyText r.body) r.status)
      ∧ isNetworkErrorOutcome (parseAndCheckResponse opName r) = false) := by
  constructor
  · intro opName r v hp hst
    simp only [parseAndCheckResponse, hp]
    rw [if_pos hst]
  · intro opName r hp
    have h : parseAndCheckResponse opName r
        = .error (.parseError (rawBodyText r.body) r.status) := by
      simp only [parseAndCheckResponse, hp]
    exact ⟨h, by rw [h]; rfl⟩

/-- C4, counterexample to the claim as stated: a 404 status with a
non-JSON body raises a ParseError, not a NetworkError — the parse failure
is not overridden by the status check. -/
theorem C4_parse_first_counterexample :
    parseAndCheckResponse "op"
        { status := 404, statusText := "Not Found", body := .invalidJson "<html>" }
      = .error (.parseError "<html>" 404)
    ∧ isNetworkErrorOutcome (parseAndCheckResponse "op"
        { status := 404, statusText := "Not Found", body := .invalidJson "<html>" })
      = false :=
  ⟨rfl, rfl⟩

/-- C4, witness: a 503 with a well-shaped envelope is still a
NetworkError; a 301 with an unparsable body is a ParseError. -/
theorem C4_status_check_witness :
    parseAndCheckResponse "w"
        { status := 503, statusText := "SU", body := .jsonText (.jobj [("data", JValue.jbool true)]) }
      = .error (.networkError 503 (.jobj [("data", JValue.jbool true)]) (networkErrorMessage 503))
    ∧ parseAndCheckResponse "w"
        { status := 301, statusText := "M", body := .invalidJson "redirect" }
      = .error (.parseError "redirect" 301) :=
  ⟨C4_status_check_amended.1 "w"
      { status := 503, statusText := "SU", body := .jsonText (.jobj [("data", JValue.jbool true)]) }
      (.jobj [("data", JValue.jbool true)]) rfl (by decide),
   (C4_status_check_amended.2 "w"
      { status := 301, statusText := "M", body := .invalidJson "redirect" } rfl).1⟩

/-- C5: evaluation at the failing input — `multipartUploadLink` sets an
explicit `content-type: multipart/form-data` header (with no boundary) on
every multipart request, while `jsonUploadLink` leaves `content-type`
unset for its multipart branch. -/
theorem C5_multipart_content_type_bug :
    requestIsMultipart (multipartUploadLinkRequest true noProps emptyContext uploadOp) = true
    ∧ requestHeader (multipartUploadLinkRequest true noProps emptyContext uploadOp)
        "content-type" = some "multipart/form-data"
    ∧ lookupKey (multipartHeaders noProps emptyContext) "content-type"
        = some "multipart/form-data"
    ∧ requestIsMultipart (jsonUploadLinkRequest noProps emptyContext uploadOp) = true
    ∧ requestHeader (jsonUploadLinkRequest noProps emptyContext uploadOp)
        "content-type" = none :=
  ⟨rfl, rfl, rfl, rfl, rfl⟩

/-- C6, amended: the header merge is a shallow key-union in which the
later (context) source wins on every exact, case-sensitive key collision;
keys differing only in case are not merged.  The claim's own example
(same-case keys) holds. -/
theorem C6_header_merge_amended :
    jsonEffectiveHeaders [] [] [("a", "1")] [("a", "2"), ("b", "3")]
      = [("a", "2"), ("b", "3")]
    ∧ (∀ (l c : List (String × String)) (k v : String),
        (c.map Prod.fst).Nodup → (k, v) ∈ c →
        lookupKey (jsonEffectiveHeaders [] [] l c) k = some v)
    ∧ (∀ (l c : List (String × String)) (k : String),
        (l.map Prod.fst).Nodup → (∀ p ∈ c, p.1 ≠ k) →
        lookupKey (jsonEffectiveHeaders [] [] l c) k = lookupKey l k) := by
  refine ⟨by decide, ?_, ?_⟩
  · intro l c k v hnd hmem
    exact lookupKey_objSpread_mem c _ k v hnd hmem
  · intro l c k hndl hc
    unfold jsonEffectiveHeaders
    rw [lookupKey_objSpread_not_mem c _ k hc]
    rw [show objSpread (objSpread [] []) l = objSpread [] l from rfl,
        objSpread_nil l hndl]

/-- C6, counterexample to the case-insensitivity the claim asserts: a
link-default `Accept` and a context `accept` are kept as two distinct
entries, and a case-insensitive lookup still finds the link value, so the
context value did not win the (case-insensitive) collision. -/
theorem C6_case_insensitive_counterexample :
    jsonEffectiveHeaders [] [] [("Accept", "1")] [("accept", "2")]
      = [("Accept", "1"), ("accept", "2")]
    ∧ lookupKey (jsonEffectiveHeaders [] [] [("Accept", "1")] [("accept", "2")])
        "Accept" = some "1" := by
  constructor <;> decide

/-- C6, witness: the amended merge at the claim's example and at a
non-colliding link key. -/
theorem C6_header_merge_witness :
    lookupKey (jsonEffectiveHeaders [] [] [("a", "1")] [("a", "2"), ("b", "3")]) "a"
      = some "2"
    ∧ lookupKey (jsonEffectiveHeaders [] [] [("x", "7")] [("a", "2")]) "x"
      = some "7" :=
  ⟨C6_header_merge_amended.2.1 [("a", "1")] [("a", "2"), ("b", "3")] "a" "2"
      (by decide) (by decide),
   (C6_header_merge_amended.2.2 [("x", "7")] [("a", "2")] "x"
      (by decide) (by decide)).trans rfl⟩

/-- C7, amended: for `multipartUploadLink` in an environment with an
AbortController, cancelling before the fetch settles aborts the in-flight
call and the AbortError rejection is suppressed, so no result and no error
is emitted; the catch handler swallows every AbortError. -/
theorem C7_cancellation_amended :
    (∀ (opName : String) (uncancelled : FetchOutcome),
      multipartCancelScenario true opName uncancelled = [])
    ∧ createSignalIfSupported true = (true, true)
    ∧ multipartTeardown true = true
    ∧ (∀ e : PipelineError, pipelineErrName e = "AbortError" → multipartCatch e = []) := by
  refine ⟨?_, rfl, rfl, ?_⟩
  · intro opName uncancelled
    simp [multipartCancelScenario, createSignalIfSupported, multipartTeardown,
      outcomeAfterCancel, multipartEmissions, multipartCatch, pipelineErrName]
  · intro e he
    simp [multipartCatch, he]

/-- C7, counterexample to the claim as stated: `jsonUploadLink` attaches
no abort signal to its fetch call, and its catch handler propagates even
an AbortError rejection to the error channel instead of suppressing it. -/
theorem C7_json_no_cancellation_counterexample :
    jsonEmissions (.rejected .abortError)
      = [.errored (.fetchFailed .abortError)]
    ∧ requestSignal (jsonUploadLinkRequest noProps emptyContext uploadOp) = some false :=
  ⟨rfl, rfl⟩

/-- C7, witness: the cancel scenario at a concrete operation emits
nothing, and the catch swallows a concrete AbortError. -/
theorem C7_cancellation_witness :
    multipartCancelScenario true "upload" (.resolved dataResp) = []
    ∧ multipartCatch (.fetchFailed .abortError) = [] :=
  ⟨C7_cancellation_amended.1 "upload" (.resolved dataResp),
   C7_cancellation_amended.2.2.2 (.fetchFailed .abortError) rfl⟩

/-- C8, amended: with no injected fetch and no global fetch binding, both
entry points fail at construction time and never proceed — but only
`multipartUploadLink` (via `warnIfNoFetch`) throws the error carrying
remediation guidance; `jsonUploadLink` fails with the bare
`ReferenceError` raised by resolving the missing global in its parameter
default, which carries no guidance. -/
theorem C8_construction_amended :
    ∀ (env : JsEnv), env.globalFetch = false →
      multipartUploadLinkConstruct false env
        = .error { name := "Error", message := fetchGuidanceMessage env.hasWindow }
      ∧ hasRemediationGuidance
          { name := "Error", message := fetchGuidanceMessage env.hasWindow } = true
      ∧ createUploadLinkConstruct true false env
        = .error { name := "Error", message := fetchGuidanceMessage env.hasWindow }
      ∧ jsonUploadLinkConstruct false env = .error referenceErrorFetch
      ∧ hasRemediationGuidance referenceErrorFetch = false := by
  intro env h
  refine ⟨?_, ?_, ?_, ?_, by decide⟩
  · simp [multipartUploadLinkConstruct, warnIfNoFetch, h]
  · unfold hasRemediationGuidance fetchGuidanceMessage
    cases env.hasWindow <;> decide
  · simp [createUploadLinkConstruct, multipartUploadLinkConstruct, warnIfNoFetch, h]
  · simp [jsonUploadLinkConstruct, h]

/-- C8, counterexample to the claim as stated: constructing via
`createUploadLink` without the multipart flag, with no fetch available,
fails with a ReferenceError whose message carries no remediation
guidance. -/
theorem C8_json_construction_counterexample :
    createUploadLinkConstruct false false
        { globalFetch := false, hasWindow := false, abortSupported := false }
      = .error referenceErrorFetch
    ∧ hasRemediationGuidance referenceErrorFetch = false :=
  ⟨rfl, by decide⟩

/-- C8, witness: the amended construction behaviour in a fetch-less
browser-like environment. -/
theorem C8_construction_witness :
    multipartUploadLinkConstruct false
        { globalFetch := false, hasWindow := true, abortSupported := true }
      = .error { name := "Error", message := fetchGuidanceMessage true }
    ∧ jsonUploadLinkConstruct false
        { globalFetch := false, hasWindow := true, abortSupported := true }
      = .error referenceErrorFetch :=
  ⟨(C8_construction_amended
      { globalFetch := false, hasWindow := true, abortSupported := true } rfl).1,
   (C8_construction_amended
      { globalFetch := false, hasWindow := true, abortSupported := true } rfl).2.2.2.1⟩

/-- C9, amended: with unserializable variables, `multipartUploadLink` and
the legacy `createUploadLink` fail fast with the tagged
payload-serialization error before any fetch call is produced;
`jsonUploadLink` also fails before its fetch, but with the raw untagged
serialization error. -/
theorem C9_serialization_amended :
    (∀ (lp : LinkProps) (ctx : RequestContext) (op : Operation),
      stringifyValue (nullifyValue (JValue.jobj op.vars)) = none →
      multipartUploadLinkRequest true lp ctx op
        = .error (payloadNotSerializable stringifyFailure)
      ∧ legacyCreateUploadLinkRequest true lp ctx op
        = .error (payloadNotSerializable stringifyFailure)
      ∧ isPayloadSerializationTagged (payloadNotSerializable stringifyFailure) = true)
    ∧ (∀ (lp : LinkProps) (ctx : RequestContext) (op : Operation),
      extractFiles (jsonOpRecord lp op) = [] →
      stringifyValue (jsonOpRecord lp op) = none →
      jsonUploadLinkRequest lp ctx op = .error stringifyFailure
      ∧ isPayloadSerializationTagged stringifyFailure = false) := by
  constructor
  · intro lp ctx op hnone
    refine ⟨?_, ?_, by decide⟩
    · simp [multipartUploadLinkRequest, multipartBodyParts, hnone]
    · simp [legacyCreateUploadLinkRequest, legacyBodyParts, hnone]
  · intro lp ctx op hfiles hnone
    refine ⟨?_, by decide⟩
    have hfe : (extractFiles (jsonOpRecord lp op)).isEmpty = true := by
      rw [hfiles]; rfl
    simp only [jsonUploadLinkRequest]
    simp only [jsonOpRecord] at hfe hnone
    simp [hfe, hnone]

/-- C9, counterexample to the claim as stated: through `jsonUploadLink`,
an operation with unserializable variables fails with the raw engine
error, which carries no payload-serialization tag. -/
theorem C9_untagged_json_counterexample :
    jsonUploadLinkRequest noProps emptyContext bigIntOp = .error stringifyFailure
    ∧ isPayloadSerializationTagged stringifyFailure = false :=
  ⟨rfl, by decide⟩

/-- C9, witness: the amended behaviour at the concrete BigInt-carrying
operation, on all three request paths. -/
theorem C9_serialization_witness :
    multipartUploadLinkRequest true noProps emptyContext bigIntOp
      = .error (payloadNotSerializable stringifyFailure)
    ∧ legacyCreateUploadLinkRequest true noProps emptyContext bigIntOp
      = .error (payloadNotSerializable stringifyFailure)
    ∧ jsonUploadLinkRequest noProps emptyContext bigIntOp = .error stringifyFailure :=
  ⟨(C9_serialization_amended.1 noProps emptyContext bigIntOp rfl).1,
   (C9_serialization_amended.1 noProps emptyContext bigIntOp rfl).2.1,
   (C9_serialization_amended.2 noProps emptyContext bigIntOp (by decide) rfl).1⟩

/-- C10, confirmed: with no AbortController in the environment, the
signal factory returns both flags false, neither multipart entry point
attaches a signal to its fetch call, the unsubscribe teardown invokes no
abort, and the cancel scenario leaves the request to settle exactly as if
it had never been cancelled. -/
theorem C10_no_abort_support_confirmed :
    createSignalIfSupported false = (false, false)
    ∧ (∀ (lp : LinkProps) (ctx : RequestContext) (op : Operation),
        attachesSignal (multipartUploadLinkRequest false lp ctx op) = false)
    ∧ (∀ (lp : LinkProps) (ctx : RequestContext) (op : Operation),
        attachesSignal (legacyCreateUploadLinkRequest false lp ctx op) = false)
    ∧ multipartTeardown (createSignalIfSupported false).1 = false
    ∧ (∀ (opName : String) (uncancelled : FetchOutcome),
        multipartCancelScenario false opName uncancelled
          = multipartEmissions opName uncancelled) := by
  refine ⟨rfl, ?_, ?_, rfl, ?_⟩
  · intro lp ctx op
    unfold multipartUploadLinkRequest
    cases multipartBodyParts lp ctx op <;>
      simp [attachesSignal, createSignalIfSupported]
  · intro lp ctx op
    unfold legacyCreateUploadLinkRequest
    cases legacyBodyParts lp ctx op <;>
      simp [attachesSignal, createSignalIfSupported]
  · intro opName uncancelled
    simp [multipartCancelScenario, createSignalIfSupported, multipartTeardown,
      outcomeAfterCancel]

/-- Finding the head part of a form body. -/
theorem findPart_cons_self (name : String) (x : FormPart) (rest : List (String × FormPart)) :
    findPart (.formBody ((name, x) :: rest)) name = some x := by
  simp only [findPart]
  rw [List.find?_cons_of_pos _ (by simp)]
  rfl

/-- Finding a part skips a head part with a different name. -/
theorem findPart_cons_ne (k name : String) (x : FormPart) (rest : List (String × FormPart))
    (h : (k == name) = false) :
    findPart (.formBody ((k, x) :: rest)) name = findPart (.formBody rest) name := by
  simp only [findPart]
  rw [List.find?_cons_of_neg _ (by simp [h])]

/-- C1, amended: for an operation whose request operation record holds at
least one file, `jsonUploadLink` produces a multipart body whose `map`
field holds exactly one entry per extracted file, keyed by the file's
zero-based index as a string, each entry's one-element path list resolving
in the request operation record (the file's location in `variables`
prefixed by the key `variables`) to exactly that file;
`multipartUploadLink` emits the same per-file index-to-path mapping under
the field name `files` (paths resolving directly in `variables`), not
`map`. -/
theorem C1_wire_map_amended :
    (∀ (lp : LinkProps) (ctx : RequestContext) (op : Operation) (s : String),
      wfKeys (jsonOpRecord lp op) = true →
      extractFiles (jsonOpRecord lp op) ≠ [] →
      stringifyValue (nullifyValue (jsonOpRecord lp op)) = some s →
      ∃ fc, jsonUploadLinkRequest lp ctx op = .ok fc
        ∧ isMultipartBody fc.body = true
        ∧ findPart fc.body "map"
            = some (.textPart (fileMapJson (extractFiles (jsonOpRecord lp op))))
        ∧ (fileMapEntries 0 (extractFiles (jsonOpRecord lp op))).length
            = (extractFiles (jsonOpRecord lp op)).length
        ∧ (∀ (j : Nat) (e : List PathSeg × UFile),
            (extractFiles (jsonOpRecord lp op))[j]? = some e →
            (fileMapEntries 0 (extractFiles (jsonOpRecord lp op)))[j]?
              = some (Nat.repr j, JValue.jarr [JValue.jstr (renderPath e.1)]))
        ∧ (∀ e ∈ extractFiles (jsonOpRecord lp op),
            getAtPath (jsonOpRecord lp op) e.1 = some (.jfile e.2)))
    ∧ (∀ (lp : LinkProps) (ctx : RequestContext) (op : Operation) (s : String),
      wfKeys (JValue.jobj op.vars) = true →
      stringifyValue (nullifyValue (JValue.jobj op.vars)) = some s →
      ∃ fc, multipartUploadLinkRequest true lp ctx op = .ok fc
        ∧ isMultipartBody fc.body = true
        ∧ findPart fc.body "files"
            = some (.textPart (fileMapJson (extractFiles (JValue.jobj op.vars))))
        ∧ (fileMapEntries 0 (extractFiles (JValue.jobj op.vars))).length
            = (extractFiles (JValue.jobj op.vars)).length
        ∧ (∀ e ∈ extractFiles (JValue.jobj op.vars),
            getAtPath (JValue.jobj op.vars) e.1 = some (.jfile e.2))) := by
  constructor
  · intro lp ctx op s hwf hne hs
    have hfe : (extractFiles (jsonOpRecord lp op)).isEmpty = false := by
      cases hfl : extractFiles (jsonOpRecord lp op) with
      | nil => exact absurd hfl hne
      | cons a l => rfl
    refine ⟨{ uri := ctx.uri.getD (lp.uri.getD "/graphql"), method := "POST",
              headers := jsonEffectiveHeaders lp.fetchOptionsHeaders
                ctx.fetchOptionsHeaders lp.headers ctx.headers,
              credentials := ctx.credentials.orElse (fun _ => lp.credentials),
              signal := false,
              body := .formBody
                (("operations", .textPart s)
                  :: ("map", .textPart (fileMapJson (extractFiles (jsonOpRecord lp op))))
                  :: filePartsFrom 0 (extractFiles (jsonOpRecord lp op))) },
            ?_, rfl, ?_, fileMapEntries_length _ 0, ?_, ?_⟩
    · simp only [jsonUploadLinkRequest, jsonOpRecord] at hfe hs ⊢
      simp [hfe, hs]
    · rw [findPart_cons_ne _ _ _ _ (by decide), findPart_cons_self]
    · intro j e hj
      rw [fileMapEntries_get? _ 0 j, hj]
      simp
    · intro e he
      exact extractFiles_sound _ hwf e.1 e.2 he
  · intro lp ctx op s hwf hs
    refine ⟨{ uri := ctx.uri.getD (lp.uri.getD "/graphql"), method := "POST",
              headers := multipartHeaders lp ctx,
              credentials := ctx.credentials.orElse (fun _ => lp.credentials),
              signal := true,
              body := .formBody
                (("files", .textPart (fileMapJson (extractFiles (JValue.jobj op.vars))))
                  :: (filePartsFrom 0 (extractFiles (JValue.jobj op.vars))
                      ++ [("operationName", .textPart op.operationName),
                          ("variables", .textPart s)]
                      ++ (if lp.includeExtensions || httpIncludeExtensions ctx then
                            [("extensions", .textPart (extensionsFormValue op.extensions))]
                          else [])
                      ++ (if httpIncludeQuery ctx then [("query", .textPart op.query)] else []))) },
            ?_, rfl, findPart_cons_self _ _ _, fileMapEntries_length _ 0, ?_⟩
    · simp only [multipartUploadLinkRequest, multipartBodyParts, hs]
      simp [createSignalIfSupported]
    · intro e he
      exact extractFiles_sound _ hwf e.1 e.2 he

/-- C1, counterexample to the claim as stated: for a one-file operation,
`multipartUploadLink` and the legacy `createUploadLink` both produce a
multipart body with no part named `map` at all (the former uses the field
name `files`, the latter emits no map and appends the file under the
constant name `file`). -/
theorem C1_no_map_field_counterexample :
    requestPartNames (multipartUploadLinkRequest true noProps emptyContext uploadOp)
      = some ["files", "0", "operationName", "variables", "query"]
    ∧ (["files", "0", "operationName", "variables", "query"].contains "map") = false
    ∧ requestPartNames (legacyCreateUploadLinkRequest true noProps emptyContext uploadOp)
      = some ["file", "operationName", "variables", "query"]
    ∧ (["file", "operationName", "variables", "query"].contains "map") = false :=
  ⟨rfl, by decide, rfl, by decide⟩

/-- C1, witness: the amended map properties at the concrete one-file
operation, on both request paths. -/
theorem C1_wire_map_witness :
    (∃ fc, jsonUploadLinkRequest noProps emptyContext uploadOp = .ok fc
      ∧ isMultipartBody fc.body = true
      ∧ findPart fc.body "map"
          = some (.textPart (fileMapJson (extractFiles (jsonOpRecord noProps uploadOp)))))
    ∧ (∃ fc, multipartUploadLinkRequest true noProps emptyContext uploadOp = .ok fc
      ∧ isMultipartBody fc.body = true
      ∧ findPart fc.body "files"
          = some (.textPart (fileMapJson (extractFiles (JValue.jobj uploadOp.vars))))) := by
  constructor
  · obtain ⟨fc, h1, h2, h3, _, _, _⟩ :=
      C1_wire_map_amended.1 noProps emptyContext uploadOp
        "\x7b\"query\":\"mutation M\",\"operationName\":\"upload\",\"variables\":\x7b\"file\":null\x7d\x7d"
        (by decide) (by decide) rfl
    exact ⟨fc, h1, h2, h3⟩
  · obtain ⟨fc, h1, h2, h3, _, _⟩ :=
      C1_wire_map_amended.2 noProps emptyContext uploadOp
        "\x7b\"file\":null\x7d" (by decide) rfl
    exact ⟨fc, h1, h2, h3⟩

/-- C2, amended: for an operation with no file-like value anywhere in its
variables (and no extensions record), `jsonUploadLink` — the path
`createUploadLink` takes without the `multipart` prop — produces a
JSON-encoded text body with the `content-type: application/json` header
set and no multipart parts; `multipartUploadLink` and the legacy
`createUploadLink`, by contrast, always produce a multipart body. -/
theorem C2_json_wire_amended :
    ∀ (lp : LinkProps) (ctx : RequestContext) (op : Operation) (s : String),
      op.extensions = none →
      extractFiles (JValue.jobj op.vars) = [] →
      stringifyValue (jsonOpRecord lp op) = some s →
      ∃ fc, jsonUploadLinkRequest lp ctx op = .ok fc
        ∧ fc.body = .textBody s
        ∧ isMultipartBody fc.body = false
        ∧ partNames fc.body = []
        ∧ lookupKey fc.headers "content-type" = some "application/json"
        ∧ createUploadLinkRequest false true lp ctx op = jsonUploadLinkRequest lp ctx op := by
  intro lp ctx op s hext hnof hs
  have hfiles : extractFiles (jsonOpRecord lp op) = [] := by
    rw [jsonOpRecord, jsonRequestOperation_extract op lp.includeExtensions hext, hnof]
    rfl
  have hfe : (extractFiles (jsonOpRecord lp op)).isEmpty = true := by
    rw [hfiles]; rfl
  refine ⟨{ uri := ctx.uri.getD (lp.uri.getD "/graphql"), method := "POST",
            headers := objSet (jsonEffectiveHeaders lp.fetchOptionsHeaders
              ctx.fetchOptionsHeaders lp.headers ctx.headers)
              "content-type" "application/json",
            credentials := ctx.credentials.orElse (fun _ => lp.credentials),
            signal := false, body := .textBody s },
          ?_, rfl, rfl, rfl, lookupKey_objSet_self _ _ _, rfl⟩
  simp only [jsonUploadLinkRequest, jsonOpRecord] at hfe hs ⊢
  simp [hfe, hs]

/-- C2, counterexample to the claim as stated: an operation with no
file-like value anywhere still yields a multipart `FormData` body — not a
JSON text body — through `multipartUploadLink`, with its explicit
multipart content type. -/
theorem C2_multipart_counterexample :
    requestIsMultipart (multipartUploadLinkRequest true noProps emptyContext plainOp) = true
    ∧ requestHeader (multipartUploadLinkRequest true noProps emptyContext plainOp)
        "content-type" = some "multipart/form-data"
    ∧ extractFiles (JValue.jobj plainOp.vars) = []
    ∧ requestIsMultipart (legacyCreateUploadLinkRequest true noProps emptyContext plainOp) = true :=
  ⟨rfl, rfl, by decide, rfl⟩

/-- C2, witness: the amended JSON-encoding behaviour at the concrete
file-free operation. -/
theorem C2_json_wire_witness :
    ∃ fc, jsonUploadLinkRequest noProps emptyContext plainOp = .ok fc
      ∧ fc.body = .textBody "\x7b\"query\":\"query Q\",\"operationName\":\"q\",\"variables\":\x7b\"id\":7\x7d\x7d"
      ∧ isMultipartBody fc.body = false
      ∧ partNames fc.body = []
      ∧ lookupKey fc.headers "content-type" = some "application/json"
      ∧ createUploadLinkRequest false true noProps emptyContext plainOp
          = jsonUploadLinkRequest noProps emptyContext plainOp :=
  C2_json_wire_amended noProps emptyContext plainOp
    "\x7b\"query\":\"query Q\",\"operationName\":\"q\",\"variables\":\x7b\"id\":7\x7d\x7d"
    rfl (by decide) rfl
